import Mathlib

/-!
Verification model of `src/PGMTranslator.py`.

The Document (the on-disk `project.json` file) is modelled as its raw byte
sequence, a `List Nat` with every entry below 256.  Python strings are
modelled as `List Char`.  The script's byte-level operations are translated
as follows:

* binary-mode reads (`open(path, 'rb')`, used by `stream_search`) act
  directly on the byte list;
* text-mode reads (`open(path, 'r', encoding='utf-8')`) decode UTF-8
  characters: `read(1)` consumes one character, that is `charLen`
  bytes starting at the cursor, and `tell` reports byte offsets (as
  CPython's `TextIOWrapper` does for UTF-8 cookies);
* the unbounded `while` loops of `stream_search` and
  `find_couple_brackets_end` are modelled with an explicit step function
  iterated under a fuel parameter, because the Python loops do not
  terminate on all inputs; a result of `none` means fuel ran out.

Python's `-1` not-found sentinel of `stream_search` is modelled as the
inner `none` of `Option (Option Nat)` (the outer layer is fuel).
-/

/-- Model of `iso_from_locale` (PGMTranslator.py lines 15-22): the
separator index is the index of `-` when the locale contains `-`, else the
index of `_` when it contains `_`, else `-1`; the result is the slice up to
that index, or the whole string when the index is `-1`. -/
def iso_from_locale (locale : List Char) : List Char :=
  let separator_index : Int :=
    if locale.contains '-' then (locale.indexOf '-' : Int)
    else if locale.contains '_' then (locale.indexOf '_' : Int)
    else -1
  if separator_index ≠ -1 then locale.take separator_index.toNat else locale

/-- Modelled from the spec: "primary subtag" as the claim reads it, the
substring up to the first occurrence of `-` or `_`, whichever occurs first
in the string, and the whole string when neither is present.  Stated only
to compare with `iso_from_locale` above. -/
def primary_subtag_first_separator (locale : List Char) : List Char :=
  locale.take (locale.findIdx fun c => c == '-' || c == '_')

/-- Model of `is_slice_in_list` (lines 31-38): whether `s` occurs as a
contiguous slice of `l`, checking `s == l[i : len s + i]` for every `i` in
`range (len l - len s + 1)`.  (Python's range is empty when the bound is
negative; with truncated `Nat` subtraction the extra index `0` checks a
shorter-than-`s` take, which can never equal `s`, so the functions agree.) -/
def is_slice_in_list (s l : List Nat) : Bool :=
  (List.range (l.length - s.length + 1)).any fun i => s == (l.drop i).take s.length

/-- One pass of the inner candidate loop of `stream_search` (lines
110-128): scan the window for the first index `i` whose byte equals
`pattern[0]` and whose suffix `subset = stream[i:]` is a slice of the
pattern, returning that index together with the suffix.  Python iterates
the candidate indices in ascending order and acts on the first one that
passes `is_slice_in_list`, ignoring the rest. -/
def firstCand (pat : List Nat) : List Nat → Nat → Option (Nat × List Nat)
  | [], _ => none
  | b :: rest, i =>
    if pat.get? 0 == some b && is_slice_in_list (b :: rest) pat
    then some (i, b :: rest)
    else firstCand pat rest (i + 1)

/-- One iteration of the `while f.tell() < end_position` loop of
`stream_search` (lines 105-128) at cursor `c`: read a window of
`pat.length` bytes, look for the first passing candidate; on a full match
return `tell - STREAM_LENGTH`, on a partial match reposition the cursor to
`tell - len(subset)`, otherwise continue after the window.  `Sum.inl` is
the new cursor, `Sum.inr` the function's return value (`none` models the
`-1` returned once the cursor reaches end-of-file). -/
def searchStep (doc pat : List Nat) (c : Nat) : Sum Nat (Option Nat) :=
  if c < doc.length then
    let stream := (doc.drop c).take pat.length
    let tell := c + stream.length
    match firstCand pat stream 0 with
    | none => Sum.inl tell
    | some (_, subset) =>
      if subset == pat then Sum.inr (some (tell - pat.length))
      else Sum.inl (tell - subset.length)
  else Sum.inr none

/-- The `stream_search` loop iterated under fuel; `none` means the fuel ran
out before the Python loop exited (which really happens on some inputs). -/
def searchLoop (doc pat : List Nat) : Nat → Nat → Option (Option Nat)
  | 0, _ => none
  | fuel + 1, c =>
    match searchStep doc pat c with
    | Sum.inr r => some r
    | Sum.inl c2 => searchLoop doc pat fuel c2

/-- Model of `stream_search` (lines 73-129): search the document bytes for
the encoded pattern starting from byte offset `start`. -/
def stream_search (doc pat : List Nat) (start fuel : Nat) : Option (Option Nat) :=
  searchLoop doc pat fuel start

/-- Byte length of the UTF-8 encoded character whose leading byte is `b`
(well-formed leading bytes assumed, as the script does). -/
def charLen (b : Nat) : Nat :=
  if b < 128 then 1 else if b < 224 then 2 else if b < 240 then 3 else 4

/-- Text-mode `file.read(1)` at byte offset `p`: one decoded character as
its byte group, together with the new byte offset.  At end-of-file Python
returns the empty string and the cursor does not move. -/
def readChar (doc : List Nat) (p : Nat) : List Nat × Nat :=
  match doc.get? p with
  | none => ([], p)
  | some b => ((doc.drop p).take (charLen b), p + charLen b)

/-- Text-mode `file.read(n)` at byte offset `p`: `n` characters (or as many
as remain), returned as raw bytes together with the new byte offset. -/
def readChars (doc : List Nat) (p : Nat) : Nat → List Nat × Nat
  | 0 => ([], p)
  | n + 1 =>
    match doc.get? p with
    | none => ([], p)
    | some b =>
      let ch := (doc.drop p).take (charLen b)
      let r := readChars doc (p + charLen b) n
      (ch ++ r.1, r.2)

/-- Overwriting `r+`-mode write: `f.seek(p)` then `f.write(s)` replaces the
bytes at `[p, p + len s)` in place and never truncates, so any old bytes
beyond the written region survive. -/
def writeAt (doc : List Nat) (p : Nat) (s : List Nat) : List Nat :=
  doc.take p ++ s ++ doc.drop (p + s.length)

/-- One iteration of the `while brackets_open != 0` loop of
`find_couple_brackets_end` (lines 58-61) on the state (byte cursor, open
bracket count): when the count is zero the loop has exited and `f.tell()`
is returned (`Sum.inr`); otherwise one character is read (`''` at
end-of-file, which matches neither bracket and leaves the state unchanged)
and the count updated. -/
def fcbeStep (doc : List Nat) (ob cb : Nat) (s : Nat × Int) : Sum (Nat × Int) Nat :=
  if s.2 = 0 then Sum.inr s.1
  else
    let r := readChar doc s.1
    Sum.inl (r.2, if r.1 = [ob] then s.2 + 1 else if r.1 = [cb] then s.2 - 1 else s.2)

/-- The `find_couple_brackets_end` loop iterated under fuel; `none` means
the fuel ran out before the Python loop exited. -/
def fcbeLoop (doc : List Nat) (ob cb : Nat) : Nat → Nat × Int → Option Nat
  | 0, _ => none
  | fuel + 1, s =>
    match fcbeStep doc ob cb s with
    | Sum.inr e => some e
    | Sum.inl s2 => fcbeLoop doc ob cb fuel s2

/-- Model of `find_couple_brackets_end` (lines 41-71) with the cursor at
byte offset `start`: consume one character (the opening delimiter), start
with `brackets_open = 1`, and run the counting loop.  The returned value is
`cursor_end_array`, the byte offset one past the matching closing
delimiter.  The `reset` flag only moves the file cursor back to `start`
afterwards and does not affect the returned offset; the callers' models
below pick the cursor (`start` or the returned offset) accordingly. -/
def find_couple_brackets_end (doc : List Nat) (start ob cb fuel : Nat) : Option Nat :=
  fcbeLoop doc ob cb fuel ((readChar doc start).2, 1)

/-- The single step of the naive bracket-depth scan the specification
describes: read one character from the byte cursor, add one on an opening
delimiter, subtract one on a closing delimiter.  Iterated with
`Function.iterate` from the state just after consuming the opening
delimiter (depth 1). -/
def scanStep (doc : List Nat) (ob cb : Nat) (s : Nat × Int) : Nat × Int :=
  let r := readChar doc s.1
  (r.2, if r.1 = [ob] then s.2 + 1 else if r.1 = [cb] then s.2 - 1 else s.2)

/-- Modelled from the spec: the JSON values exchanged with the black-box
parser/serializer collaborator (the script's `json` module, which is not
part of this repository).  Numbers are restricted to integers and strings
are taken verbatim, which covers the subranges the script manipulates. -/
inductive Json where
  | null : Json
  | bool (b : Bool) : Json
  | num (n : Int) : Json
  | str (s : List Char) : Json
  | arr (xs : List Json) : Json
  | obj (kvs : List (List Char × Json)) : Json

/-- Decimal rendering of an integer, as the serializer collaborator prints
JSON numbers. -/
def intChars : Int → List Char
  | Int.ofNat n => Nat.toDigits 10 n
  | Int.negSucc n => '-' :: Nat.toDigits 10 (n + 1)

mutual

/-- Modelled from the spec: the black-box serializer invoked as
`json.dumps(... )` / `json.dump(..., indent=None, separators=(',', ':'))`,
a minimal-whitespace encoding (strings assumed to need no escapes). -/
def dumps : Json → List Char
  | Json.null => 'n' :: 'u' :: 'l' :: 'l' :: []
  | Json.bool true => 't' :: 'r' :: 'u' :: 'e' :: []
  | Json.bool false => 'f' :: 'a' :: 'l' :: 's' :: 'e' :: []
  | Json.num n => intChars n
  | Json.str s => '"' :: (s ++ ['"'])
  | Json.arr xs => '[' :: (dumpsArr xs ++ [']'])
  | Json.obj kvs => '{' :: (dumpsObj kvs ++ ['}'])

/-- Comma-separated serialization of array elements. -/
def dumpsArr : List Json → List Char
  | [] => []
  | [x] => dumps x
  | x :: y :: xs => dumps x ++ ',' :: dumpsArr (y :: xs)

/-- Comma-separated serialization of object members with `:` separators. -/
def dumpsObj : List (List Char × Json) → List Char
  | [] => []
  | [(k, v)] => '"' :: (k ++ '"' :: ':' :: dumps v)
  | (k, v) :: m :: kvs => ('"' :: (k ++ '"' :: ':' :: dumps v)) ++ ',' :: dumpsObj (m :: kvs)

end

mutual

/-- Structural equality of JSON values, the meaning of Python's `in` /
`==` on values returned by the parser collaborator. -/
def Json.beq : Json → Json → Bool
  | Json.null, Json.null => true
  | Json.bool a, Json.bool b => a == b
  | Json.num a, Json.num b => a == b
  | Json.str a, Json.str b => a == b
  | Json.arr a, Json.arr b => Json.beqArr a b
  | Json.obj a, Json.obj b => Json.beqObj a b
  | _, _ => false

/-- Elementwise equality of JSON arrays. -/
def Json.beqArr : List Json → List Json → Bool
  | [], [] => true
  | a :: as_, b :: bs => Json.beq a b && Json.beqArr as_ bs
  | _, _ => false

/-- Memberwise equality of JSON objects (order-sensitive, as the model
never reorders members). -/
def Json.beqObj : List (List Char × Json) → List (List Char × Json) → Bool
  | [], [] => true
  | (ka, va) :: as_, (kb, vb) :: bs => ka == kb && Json.beq va vb && Json.beqObj as_ bs
  | _, _ => false

end

instance : BEq Json := ⟨Json.beq⟩

/-- Subscript access `js[key]` on a parsed JSON object; `none` models the
`KeyError` (or the `TypeError` on a non-object) that would propagate. -/
def Json.getKey : Json → List Char → Option Json
  | Json.obj kvs, k => kvs.lookup k
  | _, _ => none

/-- UTF-8 encoding of one character. -/
def encodeChar (c : Char) : List Nat :=
  let n := c.toNat
  if n < 128 then [n]
  else if n < 2048 then [192 + n / 64, 128 + n % 64]
  else if n < 65536 then [224 + n / 4096, 128 + (n / 64) % 64, 128 + n % 64]
  else [240 + n / 262144, 128 + (n / 4096) % 64, 128 + (n / 64) % 64, 128 + n % 64]

/-- UTF-8 encoding of a string, the bytes `str.encode` produces. -/
def utf8Encode (s : List Char) : List Nat := (s.map encodeChar).flatten

/-- Model of `optimize` (lines 131-143): deserialize the whole file
through the parser collaborator `loads`, rewrite it from offset 0 as the
compact serialization, and `truncate()`, so the file becomes exactly the
compact bytes.  `none` models the parse failure propagating. -/
def optimize (loads : List Char → Option Json) (s : List Char) : Option (List Char) :=
  (loads s).map dumps

/-- Model of `extract_localization` (lines 146-162): locate `textList`,
then the next `[` from there, find the matching `]` (with `reset=True` the
cursor returns to the opening bracket), then `f.read(end - start)` — a
text-mode read counting characters, not bytes.  The returned bytes are the
`data` passed to `json.loads`.  `none` models the crash paths (a `-1`
offset fed to `seek`, or fuel exhaustion of the modelled loops). -/
def extract_localization (doc : List Nat) (fuel : Nat) : Option (List Nat) :=
  match stream_search doc (utf8Encode "textList".toList) 0 fuel with
  | some (some i0) =>
    match stream_search doc (utf8Encode "[".toList) i0 fuel with
    | some (some ti) =>
      match find_couple_brackets_end doc ti 91 93 fuel with
      | some e => some (readChars doc ti (e - ti)).1
      | none => none
    | _ => none
  | _ => none

/-- Model of `add_translation` (lines 276-314): locate the `textList`
array exactly as `extract_localization` does, but keep the cursor at the
array end (`reset=False`); copy everything from there to end-of-file into
the side buffer (`temp`), seek back to the array start, write the payload
(`json.dumps(translation_array)`, abstracted as the payload bytes), and
append the buffered tail.  The writes overwrite in place and the function
never truncates the file. -/
def add_translation (doc payload : List Nat) (fuel : Nat) : Option (List Nat) :=
  match stream_search doc (utf8Encode "textList".toList) 0 fuel with
  | some (some i0) =>
    match stream_search doc (utf8Encode "[".toList) i0 fuel with
    | some (some ti) =>
      match find_couple_brackets_end doc ti 91 93 fuel with
      | some e => some (writeAt doc ti (payload ++ doc.drop e))
      | none => none
    | _ => none
  | _ => none

/-- The `js['language'].append(lang_dest)` mutation of
`add_language_support`: replace the `language` member's array by the same
array with the destination locale appended.  `none` models the `KeyError`
or non-array `TypeError` crash. -/
def jsonAppendLanguage (js : Json) (lang : List Char) : Option Json :=
  match js with
  | Json.obj kvs =>
    match kvs.lookup ('l' :: 'a' :: 'n' :: 'g' :: 'u' :: 'a' :: 'g' :: 'e' :: []) with
    | some (Json.arr ls) =>
      some (Json.obj (kvs.map fun kv =>
        if kv.1 = ('l' :: 'a' :: 'n' :: 'g' :: 'u' :: 'a' :: 'g' :: 'e' :: [])
        then (kv.1, Json.arr (ls ++ [Json.str lang])) else kv))
    | _ => none
  | _ => none

/-- Model of `add_language_support` (lines 235-274): locate
`gameInformation`, then the next `{`, find the matching `}` (cursor back at
the `{` via `reset=True`), text-read `end - start` characters, parse them
with the collaborator `loads`, and when the destination locale is already
in `js['language']` do nothing at all; otherwise append the locale, buffer
the rest of the file from the current cursor, overwrite from the object
start with the new serialization followed by the buffered tail (again with
no truncation). -/
def add_language_support (loads : List Nat → Option Json) (doc : List Nat)
    (lang : List Char) (fuel : Nat) : Option (List Nat) :=
  match stream_search doc (utf8Encode "gameInformation".toList) 0 fuel with
  | some (some g0) =>
    match stream_search doc [123] g0 fuel with
    | some (some gi) =>
      match find_couple_brackets_end doc gi 123 125 fuel with
      | some e =>
        let r := readChars doc gi (e - gi)
        match loads r.1 with
        | some js =>
          match js.getKey ('l' :: 'a' :: 'n' :: 'g' :: 'u' :: 'a' :: 'g' :: 'e' :: []) with
          | some (Json.arr ls) =>
            if ls.contains (Json.str lang) then some doc
            else
              match jsonAppendLanguage js lang with
              | some js2 => some (writeAt doc gi (utf8Encode (dumps js2) ++ doc.drop r.2))
              | none => none
          | _ => none
        | none => none
      | none => none
    | _ => none
  | _ => none

/-- A node of the `textList` tree walked by `translate_block` (lines
164-216): a JSON object that may carry a `text` member (a per-locale
mapping, modelled as an insertion-ordered association list with unique
keys, as a Python dict) and may carry a `children` member (a nested list
of further nodes); either member may be absent. -/
inductive Node where
  | mk (text : Option (List (List Char × List Char))) (children : Option (List Node)) : Node

/-- Python's `dictionary.get(key, default)`: the value stored under `key`,
or `default` when the key is absent. -/
def dictGet (d : List (List Char × List Char)) (k dflt : List Char) : List Char :=
  match d.lookup k with
  | some v => v
  | none => dflt

/-- Python's `child["text"][lang_dest] = translation` on a dict: replace
the value in place when the key exists (its position is kept), otherwise
insert the new key at the end. -/
def dictSet (d : List (List Char × List Char)) (k v : List Char) :
    List (List Char × List Char) :=
  if (d.lookup k).isSome then d.map fun kv => if kv.1 = k then (kv.1, v) else kv
  else d ++ [(k, v)]

/-- The source-language argument handed to the translation collaborator
(lines 197-199): `"auto"` verbatim, or the primary subtag otherwise. -/
def engine_source (lang_src : List Char) : List Char :=
  if lang_src = ('a' :: 'u' :: 't' :: 'o' :: []) then lang_src else iso_from_locale lang_src

mutual

/-- The per-child body of the `for child in block["children"]` loop of
`translate_block` (lines 171-216).  A child with no `text` member is
recursed into when it has `children` (the recursive `translate_block`
call, inlined here) and skipped otherwise; an empty mapping is skipped; a
mapping already holding the destination locale is skipped when `skip` is
set; otherwise the source-locale value (default: the first value) is
handed to the translation collaborator `tr`, whose `some` result is stored
under the destination locale and whose `none` result (the caught
exception) leaves the mapping untouched. -/
def translate_child (tr : List Char → List Char → List Char → Option (List Char))
    (src dst : List Char) (skip : Bool) : Node → Node
  | Node.mk none none => Node.mk none none
  | Node.mk none (some cs) => Node.mk none (some (translate_children tr src dst skip cs))
  | Node.mk (some []) ch => Node.mk (some []) ch
  | Node.mk (some ((k0, v0) :: rest)) ch =>
    if skip = true ∧ (((k0, v0) :: rest).lookup dst).isSome = true then
      Node.mk (some ((k0, v0) :: rest)) ch
    else
      match tr (dictGet ((k0, v0) :: rest) src v0) (engine_source src) (iso_from_locale dst) with
      | some translation => Node.mk (some (dictSet ((k0, v0) :: rest) dst translation)) ch
      | none => Node.mk (some ((k0, v0) :: rest)) ch

/-- The `for child in block["children"]` traversal: every child of the
batch is processed in order, independently of the others' outcomes. -/
def translate_children (tr : List Char → List Char → List Char → Option (List Char))
    (src dst : List Char) (skip : Bool) : List Node → List Node
  | [] => []
  | c :: cs => translate_child tr src dst skip c :: translate_children tr src dst skip cs

end

/-- Model of `translate_block` (lines 164-216) on one block node: walk its
`children` list with the per-child logic above.  (A block with no
`children` member would raise `KeyError` in Python; the callers guard
against it, and the model leaves such a node unchanged.) -/
def translate_block (tr : List Char → List Char → List Char → Option (List Char))
    (src dst : List Char) (skip : Bool) : Node → Node
  | Node.mk t none => Node.mk t none
  | Node.mk t (some cs) => Node.mk t (some (translate_children tr src dst skip cs))

/-! ### Theorems -/

/-- The prefix cut at `l.indexOf a` is followed by `a` itself and avoids
`a`, for any member `a` of `l`. -/
theorem take_indexOf_spec (a : Char) (l : List Char) (h : a ∈ l) :
    (∃ post, l = l.take (l.indexOf a) ++ a :: post) ∧ a ∉ l.take (l.indexOf a) := by
  induction l with
  | nil => cases h
  | cons b bs ih =>
    by_cases hb : b = a
    · subst hb
      refine ⟨⟨bs, ?_⟩, ?_⟩ <;> simp [List.indexOf_cons]
    · have hmem : a ∈ bs := by
        cases List.mem_cons.mp h with
        | inl hh => exact absurd hh.symm hb
        | inr hh => exact hh
      obtain ⟨⟨post, hpost⟩, hnot⟩ := ih hmem
      have hidx : (b :: bs).indexOf a = bs.indexOf a + 1 := by
        simp [List.indexOf_cons, hb, Ne.symm hb]
      refine ⟨⟨post, ?_⟩, ?_⟩
      · rw [hidx]
        simpa using hpost
      · rw [hidx]
        simp only [List.take_succ_cons, List.mem_cons]
        rintro (hba | hmemtake)
        · exact hb hba.symm
        · exact hnot hmemtake

/-- C8 counterexample: on the locale string `a_b-c`, where `_` occurs
before `-`, `iso_from_locale` still cuts at the `-` (because the `-`
branch is checked first) and returns `a_b`, while the claim's
"substring up to the first occurrence of `-` or `_`, whichever occurs
first" is `a`. -/
theorem iso_from_locale_cex :
    iso_from_locale ('a' :: '_' :: 'b' :: '-' :: 'c' :: []) = ('a' :: '_' :: 'b' :: [])
    ∧ primary_subtag_first_separator ('a' :: '_' :: 'b' :: '-' :: 'c' :: []) = ['a']
    ∧ iso_from_locale ('a' :: '_' :: 'b' :: '-' :: 'c' :: [])
        ≠ primary_subtag_first_separator ('a' :: '_' :: 'b' :: '-' :: 'c' :: []) := by
  exact ⟨by decide, by decide, by decide⟩

/-- On a locale that avoids character `a`, `contains a` is false. -/
theorem contains_eq_false_of_not_mem (a : Char) (l : List Char) (h : a ∉ l) :
    l.contains a = false := by
  cases hc : l.contains a with
  | false => rfl
  | true => exact absurd (List.elem_iff.mp hc) h

/-- When the locale contains `-`, `iso_from_locale` cuts at the first `-`. -/
theorem iso_from_locale_of_dash (l : List Char) (hd : '-' ∈ l) :
    iso_from_locale l = l.take (l.indexOf '-') := by
  have hcont : l.contains '-' = true := List.elem_iff.mpr hd
  unfold iso_from_locale
  rw [hcont]
  simp

/-- When the locale avoids `-` but contains `_`, `iso_from_locale` cuts at
the first `_`. -/
theorem iso_from_locale_of_underscore (l : List Char) (hnd : '-' ∉ l) (hu : '_' ∈ l) :
    iso_from_locale l = l.take (l.indexOf '_') := by
  have hcd : l.contains '-' = false := contains_eq_false_of_not_mem _ _ hnd
  have hcu : l.contains '_' = true := List.elem_iff.mpr hu
  unfold iso_from_locale
  rw [hcd, hcu]
  simp

/-- When the locale has neither separator, `iso_from_locale` is the
identity. -/
theorem iso_from_locale_of_plain (l : List Char) (hnd : '-' ∉ l) (hnu : '_' ∉ l) :
    iso_from_locale l = l := by
  have hcd : l.contains '-' = false := contains_eq_false_of_not_mem _ _ hnd
  have hcu : l.contains '_' = false := contains_eq_false_of_not_mem _ _ hnu
  unfold iso_from_locale
  rw [hcd, hcu]
  simp

/-- C8 (amended): `iso_from_locale` returns the substring up to the first
`-` when the locale contains a `-`; otherwise up to the first `_` when it
contains a `_`; otherwise the whole string.  The returned prefix contains
no further occurrence of the separator it was cut at. -/
theorem iso_from_locale_amended (l : List Char) :
    (('-' ∈ l) → ∃ post, l = iso_from_locale l ++ '-' :: post ∧ '-' ∉ iso_from_locale l)
    ∧ ('-' ∉ l → '_' ∈ l → ∃ post, l = iso_from_locale l ++ '_' :: post ∧ '_' ∉ iso_from_locale l)
    ∧ ('-' ∉ l → '_' ∉ l → iso_from_locale l = l) := by
  refine ⟨fun hd => ?_, fun hnd hu => ?_, fun hnd hnu => iso_from_locale_of_plain l hnd hnu⟩
  · obtain ⟨⟨post, hpost⟩, hnot⟩ := take_indexOf_spec '-' l hd
    rw [iso_from_locale_of_dash l hd]
    exact ⟨post, hpost, hnot⟩
  · obtain ⟨⟨post, hpost⟩, hnot⟩ := take_indexOf_spec '_' l hu
    rw [iso_from_locale_of_underscore l hnd hu]
    exact ⟨post, hpost, hnot⟩

/-- C8 witness: at the locale `it_IT` (no `-`, a `_` at index 2) the
amended statement yields the primary subtag `it`. -/
theorem iso_from_locale_amended_witness :
    ∃ post, ('i' :: 't' :: '_' :: 'I' :: 'T' :: [])
        = iso_from_locale ('i' :: 't' :: '_' :: 'I' :: 'T' :: []) ++ '_' :: post
      ∧ '_' ∉ iso_from_locale ('i' :: 't' :: '_' :: 'I' :: 'T' :: []) :=
  (iso_from_locale_amended ('i' :: 't' :: '_' :: 'I' :: 'T' :: [])).2.1
    (by decide) (by decide)

/-- C7: the Compactor is idempotent.  The JSON parser and serializer are
the spec's black-box collaborators; the hypotheses are the collaborator
round-trip contract at the one document involved: the file parses to `v`,
and the compact serialization of `v` parses back to `v`.  Then the first
application rewrites the file to exactly `dumps v` (with truncation), and
the second application maps it to the byte-identical `dumps v` again. -/
theorem optimize_idempotent (loads : List Char → Option Json) (s : List Char) (v : Json)
    (h1 : loads s = some v) (h2 : loads (dumps v) = some v) :
    optimize loads s = some (dumps v) ∧ optimize loads (dumps v) = some (dumps v) := by
  simp [optimize, h1, h2]

/-- A concrete parser instance for the idempotence witness, defined on the
two byte strings the witness exercises. -/
def loadsOpt : List Char → Option Json := fun s =>
  if s = ('[' :: ' ' :: '1' :: ' ' :: ']' :: []) then some (Json.arr [Json.num 1])
  else if s = ('[' :: '1' :: ']' :: []) then some (Json.arr [Json.num 1])
  else none

/-- C7 witness: compacting the document `[ 1 ]` twice gives the same bytes
as compacting it once. -/
theorem optimize_idempotent_witness :
    optimize loadsOpt ('[' :: ' ' :: '1' :: ' ' :: ']' :: []) = some (dumps (Json.arr [Json.num 1]))
    ∧ optimize loadsOpt (dumps (Json.arr [Json.num 1])) = some (dumps (Json.arr [Json.num 1])) :=
  optimize_idempotent loadsOpt ('[' :: ' ' :: '1' :: ' ' :: ']' :: [])
    (Json.arr [Json.num 1]) (by rfl) (by rfl)

/-- C3: `stream_search` does not terminate on the one-byte file `a` with
pattern `ab` (start 0): the partial match `a` at end-of-file is a slice of
the pattern, so the loop repositions the cursor back to offset 0 forever
and the not-found sentinel is never returned.  In the fuel model the loop
exhausts every fuel bound. -/
theorem stream_search_nonterminating :
    ∀ fuel, stream_search [97] [97, 98] 0 fuel = none := by
  have hstep : searchStep [97] [97, 98] 0 = Sum.inl 0 := by decide
  intro fuel
  induction fuel with
  | zero => rfl
  | succ n ih =>
    simp only [stream_search, searchLoop, hstep] at ih ⊢
    exact ih

/-- C5: `find_couple_brackets_end` does not terminate when the bracket
depth never returns to 0 before end-of-file — on the one-byte file `[`,
`read(1)` at end-of-file returns the empty string, which matches neither
bracket and leaves cursor and count unchanged, so the loop spins forever
instead of raising any error.  In the fuel model the loop exhausts every
fuel bound. -/
theorem find_couple_brackets_end_nonterminating :
    ∀ fuel, find_couple_brackets_end [91] 0 91 93 fuel = none := by
  have hstep : fcbeStep [91] 91 93 (1, 1) = Sum.inl (1, 1) := by decide
  have hloop : ∀ fuel, fcbeLoop [91] 91 93 fuel (1, 1) = none := by
    intro fuel
    induction fuel with
    | zero => rfl
    | succ n ih =>
      simp only [fcbeLoop, hstep]
      exact ih
  intro fuel
  have hcur : ((readChar [91] 0).2, (1 : Int)) = ((1 : Nat), (1 : Int)) := by decide
  simp only [find_couple_brackets_end, hcur]
  exact hloop fuel

/-- The document `{"textList":[11,22],"x":1}` as raw bytes. -/
def docStale : List Nat :=
  [123, 34, 116, 101, 120, 116, 76, 105, 115, 116, 34, 58, 91,
   49, 49, 44, 50, 50, 93, 44, 34, 120, 34, 58, 49, 125]

/-- C1: splicing the shorter payload `[9]` over the `textList` span
`[12, 19)` of `docStale` does not truncate the file: the result is the
correct prefix-payload-tail splice followed by four stale bytes of the old
document (`add_translation` has no `truncate()` call, unlike `optimize`),
so the spec's step "truncate if the new document is shorter" is not
implemented. -/
theorem add_translation_leaves_stale_tail :
    add_translation docStale [91, 57, 93] 64
      = some ((docStale.take 12 ++ [91, 57, 93] ++ docStale.drop 19) ++ [34, 58, 49, 125])
    ∧ (docStale.take 12 ++ [91, 57, 93] ++ docStale.drop 19) ++ [34, 58, 49, 125]
      ≠ docStale.take 12 ++ [91, 57, 93] ++ docStale.drop 19 := by decide

/-- The document `{"textList":["X"],"x":1}` where `X` is the two-byte
character U+00E9, as raw bytes. -/
def docMulti : List Nat :=
  [123, 34, 116, 101, 120, 116, 76, 105, 115, 116, 34, 58, 91,
   34, 195, 169, 34, 93, 44, 34, 120, 34, 58, 49, 125]

/-- C6: on `docMulti` the located `textList` span is `[12, 18)` (6 bytes),
but `extract_localization` reads `end - start = 6` text-mode characters,
which is 7 bytes because the span holds a two-byte character — the read
spills one byte past the span, so the extracted data is not the span's
bytes and offset arithmetic is applied to decoded character counts. -/
theorem extract_localization_reads_chars_not_bytes :
    find_couple_brackets_end docMulti 12 91 93 64 = some 18
    ∧ extract_localization docMulti 64 = some [91, 34, 195, 169, 34, 93, 44]
    ∧ ([91, 34, 195, 169, 34, 93, 44] : List Nat).length ≠ 18 - 12
    ∧ [91, 34, 195, 169, 34, 93, 44] ≠ (docMulti.drop 12).take (18 - 12) := by decide

/-- C2 counterexample: the empty pattern "occurs" at offset 0 of every
document (zero bytes match trivially), so the claim as stated requires
`stream_search` to return 0; on the empty document the loop body never
runs and the `-1` sentinel is returned instead.  (On a nonempty document
the empty pattern makes `read(0)` advance nothing and the loop never
terminates at all.) -/
theorem stream_search_empty_pattern_cex :
    (([] : List Nat).drop 0).take ([] : List Nat).length = ([] : List Nat)
    ∧ stream_search [] [] 0 5 = some none
    ∧ stream_search [] [] 0 5 ≠ some (some 0) := by decide

/-- C10: when the parsed configuration object's `language` array already
contains the destination locale, `add_language_support` takes the
membership branch and performs no write: the returned document bytes are
the input bytes.  The hypotheses name the values produced along the
success path (the two pattern searches, the span finder, and the black-box
parse of the text-read span). -/
theorem add_language_support_noop (loads : List Nat → Option Json) (doc : List Nat)
    (lang : List Char) (fuel g0 gi e : Nat) (js : Json) (ls : List Json)
    (h1 : stream_search doc (utf8Encode "gameInformation".toList) 0 fuel = some (some g0))
    (h2 : stream_search doc [123] g0 fuel = some (some gi))
    (h3 : find_couple_brackets_end doc gi 123 125 fuel = some e)
    (h4 : loads (readChars doc gi (e - gi)).1 = some js)
    (h5 : js.getKey ('l' :: 'a' :: 'n' :: 'g' :: 'u' :: 'a' :: 'g' :: 'e' :: [])
        = some (Json.arr ls))
    (h6 : ls.contains (Json.str lang) = true) :
    add_language_support loads doc lang fuel = some doc := by
  unfold add_language_support
  rw [h1]
  dsimp only
  rw [h2]
  dsimp only
  rw [h3]
  dsimp only
  rw [h4]
  dsimp only
  rw [h5]
  dsimp only
  rw [h6]
  simp

/-- The document `{"gameInformation":{"language":["en_US"]}}` as raw
bytes. -/
def docLang : List Nat :=
  [123, 34, 103, 97, 109, 101, 73, 110, 102, 111, 114, 109, 97, 116, 105, 111, 110,
   34, 58, 123, 34, 108, 97, 110, 103, 117, 97, 103, 101, 34, 58, 91, 34, 101, 110,
   95, 85, 83, 34, 93, 125, 125]

/-- The parse of `docLang`'s `gameInformation` object span. -/
def jsLang : Json :=
  Json.obj [(('l' :: 'a' :: 'n' :: 'g' :: 'u' :: 'a' :: 'g' :: 'e' :: []),
    Json.arr [Json.str ('e' :: 'n' :: '_' :: 'U' :: 'S' :: [])])]

/-- A concrete parser instance for the no-op witness, defined on the one
span the witness extracts (bytes `{"language":["en_US"]}`). -/
def loadsLang : List Nat → Option Json := fun b =>
  if b = [123, 34, 108, 97, 110, 103, 117, 97, 103, 101, 34, 58, 91, 34, 101, 110,
          95, 85, 83, 34, 93, 125]
  then some jsLang else none

/-- C10 witness: on `docLang`, whose language array already holds `en_US`,
adding support for `en_US` returns the document unchanged (the located
object span is `[19, 41)`). -/
theorem add_language_support_noop_witness :
    add_language_support loadsLang docLang ('e' :: 'n' :: '_' :: 'U' :: 'S' :: []) 64
      = some docLang :=
  add_language_support_noop loadsLang docLang ('e' :: 'n' :: '_' :: 'U' :: 'S' :: []) 64
    2 19 41 jsLang [Json.str ('e' :: 'n' :: '_' :: 'U' :: 'S' :: [])]
    (by decide) (by decide) (by decide) (by rfl) (by rfl) (by rfl)

/-- The children traversal processes a concatenation piecewise. -/
theorem translate_children_append (tr : List Char → List Char → List Char → Option (List Char))
    (src dst : List Char) (skip : Bool) (l1 l2 : List Node) :
    translate_children tr src dst skip (l1 ++ l2)
      = translate_children tr src dst skip l1 ++ translate_children tr src dst skip l2 := by
  induction l1 with
  | nil => rfl
  | cons c cs ih => simp [translate_children, ih]

/-- A child whose translation-collaborator call fails is returned with its
text mapping (and everything else) unchanged. -/
theorem translate_child_failed (tr : List Char → List Char → List Char → Option (List Char))
    (src dst : List Char) (skip : Bool) (k0 v0 : List Char)
    (rest : List (List Char × List Char)) (ch : Option (List Node))
    (hskip : ¬(skip = true ∧ (((k0, v0) :: rest).lookup dst).isSome = true))
    (hfail : tr (dictGet ((k0, v0) :: rest) src v0) (engine_source src)
        (iso_from_locale dst) = none) :
    translate_child tr src dst skip (Node.mk (some ((k0, v0) :: rest)) ch)
      = Node.mk (some ((k0, v0) :: rest)) ch := by
  rw [translate_child, if_neg hskip, hfail]

/-- C9: one failed translation is skipped and the batch goes on.  When the
collaborator call for the child in the middle fails, `translate_block`
leaves that child's text mapping exactly as it was (no destination-locale
key is added or changed) while every child before and after it in the
batch is still processed by the per-child logic. -/
theorem translate_block_skips_failed_child
    (tr : List Char → List Char → List Char → Option (List Char))
    (src dst : List Char) (skip : Bool) (t0 : Option (List (List Char × List Char)))
    (pre post : List Node) (k0 v0 : List Char) (rest : List (List Char × List Char))
    (ch : Option (List Node))
    (hskip : ¬(skip = true ∧ (((k0, v0) :: rest).lookup dst).isSome = true))
    (hfail : tr (dictGet ((k0, v0) :: rest) src v0) (engine_source src)
        (iso_from_locale dst) = none) :
    translate_block tr src dst skip
        (Node.mk t0 (some (pre ++ Node.mk (some ((k0, v0) :: rest)) ch :: post)))
      = Node.mk t0 (some (translate_children tr src dst skip pre
          ++ Node.mk (some ((k0, v0) :: rest)) ch :: translate_children tr src dst skip post)) := by
  rw [translate_block, translate_children_append, translate_children,
    translate_child_failed tr src dst skip k0 v0 rest ch hskip hfail]

/-- A concrete collaborator for the batch witness: fails on the value
`bad`, succeeds elsewhere. -/
def trFailsOnBad : List Char → List Char → List Char → Option (List Char) := fun v _ _ =>
  if v = ('b' :: 'a' :: 'd' :: []) then none else some ('X' :: v)

/-- C9 witness: in a three-child batch whose middle child's value `bad`
makes the collaborator fail, the middle child comes out unchanged and the
outer children are still handed to the per-child logic. -/
theorem translate_block_skips_failed_child_witness :
    translate_block trFailsOnBad ('e' :: 'n' :: []) ('i' :: 't' :: []) false
        (Node.mk none (some ([Node.mk (some [(('e' :: 'n' :: []), ('h' :: 'i' :: []))]) none]
          ++ Node.mk (some [(('e' :: 'n' :: []), ('b' :: 'a' :: 'd' :: []))]) none
          :: [Node.mk (some [(('e' :: 'n' :: []), ('y' :: 'o' :: []))]) none])))
      = Node.mk none (some (translate_children trFailsOnBad ('e' :: 'n' :: []) ('i' :: 't' :: []) false
            [Node.mk (some [(('e' :: 'n' :: []), ('h' :: 'i' :: []))]) none]
          ++ Node.mk (some [(('e' :: 'n' :: []), ('b' :: 'a' :: 'd' :: []))]) none
          :: translate_children trFailsOnBad ('e' :: 'n' :: []) ('i' :: 't' :: []) false
            [Node.mk (some [(('e' :: 'n' :: []), ('y' :: 'o' :: []))]) none])) :=
  translate_block_skips_failed_child trFailsOnBad ('e' :: 'n' :: []) ('i' :: 't' :: []) false
    none _ _ ('e' :: 'n' :: []) ('b' :: 'a' :: 'd' :: []) [] none
    (by decide) (by rfl)

/-- While the bracket count is nonzero, the loop body acts exactly as the
naive depth-scan step. -/
theorem fcbeStep_ne_zero (doc : List Nat) (ob cb : Nat) (s : Nat × Int) (h : s.2 ≠ 0) :
    fcbeStep doc ob cb s = Sum.inl (scanStep doc ob cb s) := by
  rw [fcbeStep, if_neg h]
  rfl

/-- The counting loop started from a state whose naive scan first reaches
count 0 after `k` steps at byte position `e` returns exactly `e`, for any
fuel beyond `k`. -/
theorem fcbeLoop_reaches (doc : List Nat) (ob cb : Nat) :
    ∀ k (s : Nat × Int) (e : Nat) (fuel : Nat),
      (scanStep doc ob cb)^[k] s = (e, 0)
      → (∀ j < k, ((scanStep doc ob cb)^[j] s).2 ≠ 0)
      → k < fuel → fcbeLoop doc ob cb fuel s = some e := by
  intro k
  induction k with
  | zero =>
    intro s e fuel h0 _ hf
    obtain ⟨n, rfl⟩ : ∃ n, fuel = n + 1 := ⟨fuel - 1, by omega⟩
    simp only [Function.iterate_zero, id] at h0
    subst h0
    simp [fcbeLoop, fcbeStep]
  | succ k ih =>
    intro s e fuel h0 hne hf
    obtain ⟨n, rfl⟩ : ∃ n, fuel = n + 1 := ⟨fuel - 1, by omega⟩
    have hs : s.2 ≠ 0 := by
      have h00 := hne 0 (Nat.succ_pos k)
      simpa using h00
    simp only [fcbeLoop, fcbeStep_ne_zero doc ob cb s hs]
    exact ih (scanStep doc ob cb s) e n
      (by rw [← Function.iterate_succ_apply]; exact h0)
      (fun j hj => by
        rw [← Function.iterate_succ_apply]
        exact hne (j + 1) (by omega))
      (by omega)

/-- C4: on a file whose naive bracket-depth scan — depth 1 after consuming
the opening delimiter at `start`, `+1` per opening and `-1` per closing
delimiter — first returns to exactly 0 after `k` characters at byte offset
`e` (never touching 0 earlier), `find_couple_brackets_end` returns that
offset `e`, one byte past the matching closing delimiter. -/
theorem find_couple_brackets_end_wellformed (doc : List Nat) (start ob cb e k fuel : Nat)
    (hk : (scanStep doc ob cb)^[k] ((readChar doc start).2, 1) = (e, 0))
    (hfirst : ∀ j < k, ((scanStep doc ob cb)^[j] ((readChar doc start).2, 1)).2 ≠ 0)
    (hfuel : k < fuel) :
    find_couple_brackets_end doc start ob cb fuel = some e :=
  fcbeLoop_reaches doc ob cb k ((readChar doc start).2, 1) e fuel hk hfirst hfuel

/-- C4 witness: on the file `[[]]` the scan from the opening bracket at
offset 0 first returns to depth 0 after 3 characters at offset 4, and the
span finder returns 4. -/
theorem find_couple_brackets_end_wellformed_witness :
    find_couple_brackets_end [91, 91, 93, 93] 0 91 93 10 = some 4 :=
  find_couple_brackets_end_wellformed [91, 91, 93, 93] 0 91 93 4 3 10
    (by decide) (by decide) (by decide)

/-- A pattern match at offset `o` (the take of length `pat.length` at `o`
equals `pat`) fits inside the document. -/
theorem matchAt_bound (doc pat : List Nat) (o : Nat) (hne : pat ≠ [])
    (hm : (doc.drop o).take pat.length = pat) : o + pat.length ≤ doc.length := by
  have hlen : ((doc.drop o).take pat.length).length = pat.length := by rw [hm]
  rw [List.length_take, List.length_drop] at hlen
  have hplen : 0 < pat.length := List.length_pos.mpr hne
  omega

/-- Every list is a slice of itself. -/
theorem is_slice_in_list_self (l : List Nat) : is_slice_in_list l l = true := by
  unfold is_slice_in_list
  apply List.any_eq_true.mpr
  exact ⟨0, by simp [List.mem_range], by simp⟩

/-- Every take of the pattern is a slice of the pattern. -/
theorem is_slice_in_list_take (pat : List Nat) (k : Nat) :
    is_slice_in_list (pat.take k) pat = true := by
  unfold is_slice_in_list
  apply List.any_eq_true.mpr
  refine ⟨0, by simp [List.mem_range], ?_⟩
  simp only [List.drop_zero, List.length_take]
  rw [← List.take_take, List.take_length]
  simp

/-- For equal lengths the slice test degenerates to equality. -/
theorem is_slice_in_list_length_eq (s pat : List Nat) (hl : s.length = pat.length) :
    is_slice_in_list s pat = true ↔ s = pat := by
  unfold is_slice_in_list
  rw [hl, Nat.sub_self]
  rw [show List.range 1 = [0] from rfl]
  simp [hl, List.take_length]

/-- Soundness of an empty candidate scan: no suffix of the window passes
the byte-and-slice test. -/
theorem firstCand_none (pat : List Nat) :
    ∀ (s : List Nat) (i j b : Nat) (t : List Nat), firstCand pat s i = none →
      s.drop j = b :: t →
      (pat.get? 0 == some b && is_slice_in_list (b :: t) pat) = false := by
  intro s
  induction s with
  | nil =>
    intro i j b t _ hd
    simp at hd
  | cons x xs ih =>
    intro i j b t hfc hd
    rw [firstCand] at hfc
    split at hfc
    · exact absurd hfc (by simp)
    · rename_i hc
      cases j with
      | zero =>
        simp only [List.drop_zero, List.cons.injEq] at hd
        obtain ⟨rfl, rfl⟩ := hd
        exact Bool.eq_false_iff.mpr hc
      | succ j => exact ih (i + 1) j b t hfc (by simpa using hd)

/-- Soundness of a successful candidate scan: the returned index points at
an in-window suffix passing the test, and no earlier suffix passes it. -/
theorem firstCand_some (pat : List Nat) :
    ∀ (s : List Nat) (i r : Nat) (sub : List Nat), firstCand pat s i = some (r, sub) →
      ∃ j, r = i + j ∧ sub = s.drop j ∧ sub ≠ []
        ∧ (pat.get? 0 == some (sub.headD 0) && is_slice_in_list sub pat) = true
        ∧ ∀ j' < j, ∀ b t, s.drop j' = b :: t →
            (pat.get? 0 == some b && is_slice_in_list (b :: t) pat) = false := by
  intro s
  induction s with
  | nil =>
    intro i r sub h
    rw [firstCand] at h
    exact absurd h (by simp)
  | cons x xs ih =>
    intro i r sub h
    rw [firstCand] at h
    split at h
    · rename_i hc
      simp only [Option.some.injEq, Prod.mk.injEq] at h
      obtain ⟨rfl, rfl⟩ := h
      exact ⟨0, by omega, by simp, by simp, by simpa using hc, by omega⟩
    · rename_i hc
      obtain ⟨j, hj1, hj2, hjne, hj3, hj4⟩ := ih (i + 1) r sub h
      refine ⟨j + 1, by omega, by simpa using hj2, hjne, hj3, ?_⟩
      intro j' hj' b t hd
      cases j' with
      | zero =>
        simp only [List.drop_zero, List.cons.injEq] at hd
        obtain ⟨rfl, rfl⟩ := hd
        exact Bool.eq_false_iff.mpr hc
      | succ j' => exact hj4 j' (by omega) b t (by simpa using hd)

/-- The candidate scan of a window equal to the pattern succeeds at index
0 immediately. -/
theorem firstCand_self (pat : List Nat) (hne : pat ≠ []) :
    firstCand pat pat 0 = some (0, pat) := by
  obtain ⟨p0, pr, rfl⟩ : ∃ p0 pr, pat = p0 :: pr := by
    cases pat with
    | nil => exact absurd rfl hne
    | cons a l => exact ⟨a, l, rfl⟩
  rw [firstCand, if_pos]
  simp [is_slice_in_list_self]

/-- Inside a window that covers the match offset `o`, the suffix starting
at window index `o - c` begins with the pattern's first byte and is a take
of the pattern, so it passes the candidate test. -/
theorem cond_at_offset (doc : List Nat) (p0 : Nat) (pr : List Nat) (o c : Nat)
    (hm : (doc.drop o).take (p0 :: pr).length = p0 :: pr) (hco : c ≤ o)
    (hlt : o < c + (p0 :: pr).length) :
    ∃ t, ((doc.drop c).take (p0 :: pr).length).drop (o - c) = p0 :: t
      ∧ ((p0 :: pr).get? 0 == some p0 && is_slice_in_list (p0 :: t) (p0 :: pr)) = true := by
  have hdt : ((doc.drop c).take (p0 :: pr).length).drop (o - c)
      = (doc.drop o).take ((p0 :: pr).length - (o - c)) := by
    rw [List.drop_take, List.drop_drop]
    congr 2
    omega
  have hmin2 : min ((p0 :: pr).length - (o - c)) (p0 :: pr).length
      = (p0 :: pr).length - (o - c) := by
    simp only [List.length_cons]
    omega
  have htake : (doc.drop o).take ((p0 :: pr).length - (o - c))
      = (p0 :: pr).take ((p0 :: pr).length - (o - c)) := by
    calc (doc.drop o).take ((p0 :: pr).length - (o - c))
        = (doc.drop o).take (min ((p0 :: pr).length - (o - c)) (p0 :: pr).length) := by
          rw [hmin2]
      _ = ((doc.drop o).take (p0 :: pr).length).take ((p0 :: pr).length - (o - c)) :=
          (List.take_take _ _ _).symm
      _ = (p0 :: pr).take ((p0 :: pr).length - (o - c)) := by rw [hm]
  obtain ⟨k', hk1⟩ : ∃ k', (p0 :: pr).length - (o - c) = k' + 1 := by
    refine ⟨(p0 :: pr).length - (o - c) - 1, ?_⟩
    simp only [List.length_cons] at hlt ⊢
    omega
  refine ⟨pr.take k', ?_, ?_⟩
  · rw [hdt, htake, hk1, List.take_succ_cons]
  · have h2 : is_slice_in_list (p0 :: pr.take k') (p0 :: pr) = true := by
      have h3 := is_slice_in_list_take (p0 :: pr) (k' + 1)
      rw [List.take_succ_cons] at h3
      exact h3
    simp [h2]

/-- At the match offset itself the loop body returns the current cursor:
the window is the pattern, the candidate at index 0 is a full match, and
`f.tell() - STREAM_LENGTH` is the match offset. -/
theorem searchStep_at_match (doc pat : List Nat) (o : Nat) (hne : pat ≠ [])
    (hm : (doc.drop o).take pat.length = pat) :
    searchStep doc pat o = Sum.inr (some o) := by
  have hb := matchAt_bound doc pat o hne hm
  have hplen : 0 < pat.length := List.length_pos.mpr hne
  have ho : o < doc.length := by omega
  unfold searchStep
  rw [if_pos ho]
  simp only [hm, firstCand_self pat hne]
  simp

/-- Strictly before the (earliest) match offset the loop body advances the
cursor without passing it: either the window holds no passing candidate
and the cursor jumps past the window (which then lies entirely before the
match), or the first passing candidate repositions the cursor to a window
index that is at most the match offset and at least one byte forward. -/
theorem searchStep_before_match (doc pat : List Nat) (o c : Nat) (hne : pat ≠ [])
    (hm : (doc.drop o).take pat.length = pat)
    (hmin : ∀ q < o, (doc.drop q).take pat.length ≠ pat)
    (hc : c < o) :
    ∃ c2, searchStep doc pat c = Sum.inl c2 ∧ c < c2 ∧ c2 ≤ o := by
  obtain ⟨p0, pr, rfl⟩ : ∃ p0 pr, pat = p0 :: pr := by
    cases pat with
    | nil => exact absurd rfl hne
    | cons a l => exact ⟨a, l, rfl⟩
  have hb := matchAt_bound doc (p0 :: pr) o hne hm
  have hlt : c < doc.length := by
    simp only [List.length_cons] at hb
    omega
  have hsl : ((doc.drop c).take (p0 :: pr).length).length = (p0 :: pr).length := by
    rw [List.length_take, List.length_drop]
    simp only [List.length_cons] at hb ⊢
    omega
  cases hfc : firstCand (p0 :: pr) ((doc.drop c).take (p0 :: pr).length) 0 with
  | none =>
    have hstep : searchStep doc (p0 :: pr) c
        = Sum.inl (c + ((doc.drop c).take (p0 :: pr).length).length) := by
      unfold searchStep
      rw [if_pos hlt]
      simp only [hfc]
    refine ⟨c + ((doc.drop c).take (p0 :: pr).length).length, hstep, ?_, ?_⟩
    · rw [hsl]
      simp only [List.length_cons]
      omega
    · rw [hsl]
      by_contra hcon
      push_neg at hcon
      obtain ⟨t, hdrop, hcond⟩ := cond_at_offset doc p0 pr o c hm (by omega) hcon
      have hfalse := firstCand_none (p0 :: pr) ((doc.drop c).take (p0 :: pr).length)
        0 (o - c) p0 t hfc hdrop
      rw [hcond] at hfalse
      exact absurd hfalse (by simp)
  | some rs =>
    obtain ⟨r, sub⟩ := rs
    obtain ⟨j, hj1, hj2, hjne, hj3, hj4⟩ :=
      firstCand_some (p0 :: pr) ((doc.drop c).take (p0 :: pr).length) 0 r sub hfc
    have hjlt : j < (p0 :: pr).length := by
      by_contra hjge
      push_neg at hjge
      rw [List.drop_eq_nil_of_le (by rw [hsl]; exact hjge)] at hj2
      exact hjne hj2
    have hsublen : sub.length = (p0 :: pr).length - j := by
      rw [hj2, List.length_drop, hsl]
    have hsubne : sub ≠ p0 :: pr := by
      intro heq
      have hj0 : j = 0 := by
        have hlencong := congrArg List.length heq
        rw [hsublen] at hlencong
        simp only [List.length_cons] at hlencong ⊢
        omega
      subst hj0
      rw [List.drop_zero] at hj2
      exact hmin c hc (hj2 ▸ heq)
    have hj1pos : 1 ≤ j := by
      rcases Nat.eq_zero_or_pos j with hj0 | hp
      · subst hj0
        rw [List.drop_zero] at hj2
        have hslice : is_slice_in_list sub (p0 :: pr) = true := by
          have hand := hj3
          simp only [Bool.and_eq_true] at hand
          exact hand.2
        have hlen2 : sub.length = (p0 :: pr).length := by rw [hj2, hsl]
        exact absurd ((is_slice_in_list_length_eq sub (p0 :: pr) hlen2).mp hslice) hsubne
      · exact hp
    have hstep : searchStep doc (p0 :: pr) c
        = Sum.inl (c + ((doc.drop c).take (p0 :: pr).length).length - sub.length) := by
      unfold searchStep
      rw [if_pos hlt]
      simp only [hfc, beq_false_of_ne hsubne, Bool.false_eq_true, if_false]
    refine ⟨c + ((doc.drop c).take (p0 :: pr).length).length - sub.length, hstep, ?_, ?_⟩
    · rw [hsl, hsublen]
      simp only [List.length_cons] at hjlt ⊢
      omega
    · rw [hsl, hsublen]
      rcases Nat.lt_or_ge o (c + (p0 :: pr).length) with hwin | hwin
      · have hjle : j ≤ o - c := by
          by_contra hjgt
          push_neg at hjgt
          obtain ⟨t, hdrop, hcond⟩ := cond_at_offset doc p0 pr o c hm (by omega) hwin
          have := hj4 (o - c) hjgt p0 t hdrop
          rw [hcond] at this
          exact absurd this (by simp)
        simp only [List.length_cons] at hjlt ⊢
        omega
      · simp only [List.length_cons] at hjlt hwin ⊢
        omega

/-- From any cursor at or before the earliest match offset, the search
loop returns exactly that offset, given fuel beyond the remaining
distance. -/
theorem searchLoop_finds (doc pat : List Nat) (o : Nat) (hne : pat ≠ [])
    (hm : (doc.drop o).take pat.length = pat)
    (hmin : ∀ q < o, (doc.drop q).take pat.length ≠ pat) :
    ∀ fuel c, c ≤ o → o - c < fuel → searchLoop doc pat fuel c = some (some o) := by
  intro fuel
  induction fuel with
  | zero =>
    intro c hc hf
    exact absurd hf (by omega)
  | succ n ih =>
    intro c hc hf
    rcases Nat.lt_or_ge c o with hclt | hcge
    · obtain ⟨c2, hstep, hgt, hle⟩ := searchStep_before_match doc pat o c hne hm hmin hclt
      simp only [searchLoop, hstep]
      exact ih c2 hle (by omega)
    · have hco : c = o := by omega
      subst hco
      simp only [searchLoop, searchStep_at_match doc pat c hne hm]

/-- C2 (amended): for every document and every nonempty pattern occurring
in it, `stream_search` from offset 0 returns the minimum offset `o` whose
`pat.length` bytes equal the pattern — including a match ending exactly at
the last byte of the file — given fuel beyond `o`. -/
theorem stream_search_min (doc pat : List Nat) (o fuel : Nat) (hne : pat ≠ [])
    (hm : (doc.drop o).take pat.length = pat)
    (hmin : ∀ q < o, (doc.drop q).take pat.length ≠ pat)
    (hfuel : o < fuel) :
    stream_search doc pat 0 fuel = some (some o) :=
  searchLoop_finds doc pat o hne hm hmin fuel 0 (Nat.zero_le o) (by omega)

/-- C2 witness: in the document `aab` the pattern `ab` first occurs at
offset 1 (a match ending exactly at end-of-file, found through the
partial-match realignment), and `stream_search` returns 1. -/
theorem stream_search_min_witness :
    stream_search [97, 97, 98] [97, 98] 0 5 = some (some 1) :=
  stream_search_min [97, 97, 98] [97, 98] 1 5 (by decide) (by decide) (by decide) (by decide)
